import Mathlib

/-!
A shallow embedding of `src/libmbsystrace/src/procfs.cpp` (DualBootPatcher).

Errors are modelled as errno values (`Nat`), matching the C++ code, where
every error path produces a `std::error_code` over the generic category:
`ec_from_errno()` yields the current `errno`, and `std::errc` constants
carry the corresponding POSIX errno values (`std::errc::io_error` = EIO,
`std::errc::invalid_argument` = EINVAL, `std::errc::filename_too_long` =
ENAMETOOLONG).  Text is modelled as `List Char`.  The filesystem is passed
explicitly: open results are `Except` values supplied by the environment,
and each entry point additionally reports whether it touched the
filesystem at all (the `Bool` component of its result), so that
guard-before-I/O properties can be stated.

The thread-listing directory stream models `DIR *`: a list of entries and
a read position; `readdir` yields the entry at the position, `rewinddir`
resets the position.  The enumeration callback receives the live directory
contents and may change them, modelling the documented race where the
callback's side effects make the traced process spawn threads during
enumeration.  Both loops of `for_each_tid` are given explicit fuel (the
C++ inner loop need not terminate if the callback keeps growing the
directory); `none` means the fuel ran out.  The `trace` and `passes`
fields of the loop state are ghost instrumentation recording callback
invocations and completed scan passes; they never influence control flow.
-/

namespace Procfs

abbrev Errno := Nat

/-- `EIO`, the value of `std::errc::io_error` on POSIX systems. -/
def EIO : Errno := 5

/-- `EINVAL`, the value of `std::errc::invalid_argument`. -/
def EINVAL : Errno := 22

/-- `ENAMETOOLONG`, the value of `std::errc::filename_too_long`. -/
def ENAMETOOLONG : Errno := 36

/-- `ERANGE`, numeric conversion out of range. -/
def ERANGE : Errno := 34

/-- Maximum value of `pid_t` (a 32-bit signed integer on Linux). -/
def INT32_MAX : Nat := 2147483647

/-- Characters of a string literal. -/
def chars (s : String) : List Char := s.toList

/-- The part of `struct stat` that `ensure_procfs` inspects:
`major(sb.st_dev)`. -/
structure Stat where
  st_dev_major : Nat
deriving DecidableEq

/-- `ensure_procfs(int fd)`: rejects a negative descriptor with
`EINVAL`, propagates an `fstat` failure, and rejects a backing device
whose major number is non-zero with `std::errc::io_error`.  The `fstat`
result is supplied by the environment. -/
def ensure_procfs (fd : Int) (fstatRes : Except Errno Stat) : Except Errno Unit :=
  if fd < 0 then
    .error EINVAL
  else
    match fstatRes with
    | .error e => .error e
    | .ok sb => if sb.st_dev_major ≠ 0 then .error EIO else .ok ()

/-- Whitespace as recognised by C numeric conversion (`isspace`). -/
def isSpaceChar (c : Char) : Bool :=
  c = ' ' ∨ c = '\t' ∨ c = '\n' ∨ c = '\r' ∨ c = '\x0b' ∨ c = '\x0c'

/-- Value of a list of decimal digits. -/
def digitsToNat (l : List Char) : Nat :=
  l.foldl (fun a c => a * 10 + (c.toNat - 48)) 0

/-- Modelled from the spec: `mb::str_to_num` (from `mbcommon/integer.h`,
which is not under `src/`).  Per the spec, status-record lines have the
shape `name:\twhitespace*value` and the remainder after the delimiter "is
parsed as a base-10 integer", so leading whitespace is skipped; directory
entry names "must parse as a non-negative integer thread id"; a
non-numeric input is a parse error (errno `EINVAL`) and an out-of-range
value for the 32-bit id type surfaces the OS conversion error (`ERANGE`).
Returns the parsed value or the errno that `ec_from_errno()` would
observe. -/
def str_to_num (s : List Char) : Except Errno Int :=
  let t := s.dropWhile isSpaceChar
  if t = [] then .error EINVAL
  else if t.all Char.isDigit then
    let v := digitsToNat t
    if v ≤ INT32_MAX then .ok (Int.ofNat v) else .error ERANGE
  else .error EINVAL

/-- Decimal rendering of an `int`, as `snprintf`'s `%d` produces it. -/
def intRepr (i : Int) : List Char :=
  if i < 0 then '-' :: Nat.toDigits 10 i.natAbs else Nat.toDigits 10 i.natAbs

/-- The formatted path `/proc/<pid>/status`. -/
def statusPath (pid : Int) : List Char :=
  chars "/proc/" ++ intRepr pid ++ chars "/status"

/-- The formatted path `/proc/<pid>/task`. -/
def taskPath (pid : Int) : List Char :=
  chars "/proc/" ++ intRepr pid ++ chars "/task"

/-- One `fgets` chunk: at most `n` characters, stopping after a newline.
Returns the chunk and the unread remainder of the stream. -/
def takeLine : Nat → List Char → List Char × List Char
  | _, [] => ([], [])
  | 0, s => ([], s)
  | n + 1, c :: rest =>
    if c = '\n' then ([c], rest)
    else
      let p := takeLine n rest
      (c :: p.1, p.2)

/-- `fgets(buf, n + 1, fp)` on a stream with `s` left to read: `none` at
end of stream, otherwise the chunk read into `buf` and the remainder. -/
def fgetsChunk (n : Nat) (s : List Char) : Option (List Char × List Char) :=
  if s = [] then none else some (takeLine n s)

/-- The match condition of `get_pid_status_field`:
`sv.size() > name.size() && starts_with(sv, name) && sv[name.size()] == ':'`. -/
def matchesField (name sv : List Char) : Bool :=
  decide (name.length < sv.length) && name.isPrefixOf sv
    && (sv.get? name.length == some ':')

/-- Trim one trailing newline:
`if (!sv.empty() && sv.back() == '\n') sv.remove_suffix(1)`. -/
def trimEol (sv : List Char) : List Char :=
  match sv.getLast? with
  | some '\n' => sv.dropLast
  | _ => sv

/-- The `fgets` loop of `get_pid_status_field`: reads chunks of at most
1023 characters through the 1024-byte buffer, treats each chunk as a
line, and on the first chunk matching `name:` parses the remainder.  At
end of file without a match (and no stream error) the C++ code returns
`std::errc::io_error`.  `fuel` bounds the number of chunks; each chunk
consumes at least one character, so `s.length + 1` always suffices. -/
def scanStatus (name : List Char) : Nat → List Char → Except Errno Int
  | 0, _ => .error EIO
  | fuel + 1, s =>
    match fgetsChunk 1023 s with
    | none => .error EIO
    | some (buf, rest) =>
      if matchesField name buf then
        str_to_num (trimEol (buf.drop (name.length + 1)))
      else
        scanStatus name fuel rest

/-- What a successful `fopen` of `/proc/<pid>/status` yields: the major
device number the subsequent `fstat` reports, and the file contents. -/
structure StatusFile where
  major : Nat
  content : List Char
deriving DecidableEq

/-- `get_pid_status_field(pid_t pid, std::string_view name)`.  The first
component records whether the filesystem was touched (the `fopen` call);
the second is the function's result. -/
def get_pid_status_field (PATH_MAX : Nat) (pid : Int) (name : List Char)
    (openRes : Except Errno StatusFile) : Bool × Except Errno Int :=
  if (statusPath pid).length ≥ PATH_MAX then
    (false, .error ENAMETOOLONG)
  else
    match openRes with
    | .error e => (true, .error e)
    | .ok f =>
      match ensure_procfs 0 (.ok { st_dev_major := f.major }) with
      | .error e => (true, .error e)
      | .ok _ => (true, scanStatus name (f.content.length + 1) f.content)

/-- `get_tgid(pid_t pid)`: `get_pid_status_field(pid, "Tgid")`. -/
def get_tgid (PATH_MAX : Nat) (pid : Int) (openRes : Except Errno StatusFile) :
    Bool × Except Errno Int :=
  get_pid_status_field PATH_MAX pid (chars "Tgid") openRes

/-- What a successful `opendir` of `/proc/<pid>/task` yields. -/
structure TaskDir where
  major : Nat
  entries : List (List Char)
deriving DecidableEq

/-- The enumeration callback.  It receives the thread id and the live
directory contents, and returns its claim decision together with the
(possibly changed) directory contents, modelling side effects that make
the traced process spawn threads during enumeration. -/
abbrev Cb := Int → List (List Char) → Except Errno (Bool × List (List Char))

/-- State of the scan loops of `for_each_tid`.  `entries`/`pos` model the
`DIR *` stream, `tids` the `std::unordered_set<pid_t>`, `foundNew` the
`found_new_thread` flag.  `trace` (callback invocations with their claim
results) and `passes` (completed scan passes) are ghost instrumentation
and never influence control flow. -/
structure LoopState where
  entries : List (List Char)
  pos : Nat
  tids : List Int
  trace : List (Int × Bool)
  passes : Nat
  foundNew : Bool
deriving DecidableEq

/-- `readdir`: the entry at the stream position, advancing it; `none` at
the end of the stream. -/
def readdir (st : LoopState) : Option (List Char × LoopState) :=
  match st.entries.drop st.pos with
  | [] => none
  | e :: _ => some (e, { st with pos := st.pos + 1 })

/-- The inner `while ((ent = readdir(dp.get())))` loop of `for_each_tid`:
skips `.` and `..`, fails with the conversion errno on a non-numeric
name, skips ids already in `tids`, and otherwise invokes the callback,
inserting the id (and marking the pass productive) iff it claims. -/
def scanPass (cb : Cb) : Nat → LoopState → Option (Except Errno LoopState)
  | 0, _ => none
  | fuel + 1, st =>
    match readdir st with
    | none => some (.ok st)
    | some (name, st') =>
      if name = chars "." ∨ name = chars ".." then
        scanPass cb fuel st'
      else
        match str_to_num name with
        | .error e => some (.error e)
        | .ok tid =>
          if tid ∈ st'.tids then
            scanPass cb fuel st'
          else
            match cb tid st'.entries with
            | .error e => some (.error e)
            | .ok (addToList, entries') =>
              if addToList then
                scanPass cb fuel
                  { st' with
                    entries := entries'
                    tids := tid :: st'.tids
                    trace := st'.trace ++ [(tid, true)]
                    foundNew := true }
              else
                scanPass cb fuel
                  { st' with
                    entries := entries'
                    trace := st'.trace ++ [(tid, false)] }

/-- The outer `for (int it = 0; it < 2; ++it)` loop of `for_each_tid`.
Each iteration clears `found_new_thread` and runs one scan pass; if the
pass was productive and `retry_until_no_more` is set, the stream is
rewound and `it` is reset (`it = -1`, then incremented by the loop
header).  On exit the C++ code returns `oc::success()`, which
value-initialises the `bool` of `oc::result<bool>` — i.e. `false`. -/
def passLoop (cb : Cb) (retry_until_no_more : Bool) (sf : Nat) :
    Nat → Int → LoopState → Option (Except Errno (Bool × LoopState))
  | 0, _, _ => none
  | pf + 1, it, st =>
    if it < 2 then
      match scanPass cb sf { st with foundNew := false, passes := st.passes + 1 } with
      | none => none
      | some (.error e) => some (.error e)
      | some (.ok st1) =>
        if st1.foundNew && retry_until_no_more then
          passLoop cb retry_until_no_more sf pf ((-1 : Int) + 1) { st1 with pos := 0 }
        else
          passLoop cb retry_until_no_more sf pf (it + 1) st1
    else
      some (.ok (false, st))

/-- `for_each_tid(pid_t pid, func, bool retry_until_no_more)`.  The first
component records whether the filesystem was touched (the `opendir`
call); the second is the function's result (`none` = out of fuel). -/
def for_each_tid (PATH_MAX : Nat) (pid : Int) (cb : Cb)
    (retry_until_no_more : Bool) (openRes : Except Errno TaskDir)
    (fuel : Nat) : Bool × Option (Except Errno (Bool × LoopState)) :=
  if (taskPath pid).length ≥ PATH_MAX then
    (false, some (.error ENAMETOOLONG))
  else
    match openRes with
    | .error e => (true, some (.error e))
    | .ok d =>
      match ensure_procfs 0 (.ok { st_dev_major := d.major }) with
      | .error e => (true, some (.error e))
      | .ok _ =>
        (true, passLoop cb retry_until_no_more fuel fuel 0
          { entries := d.entries, pos := 0, tids := [], trace := [],
            passes := 0, foundNew := false })

/-- The final loop state of a successful enumeration, if any. -/
def okState : Bool × Option (Except Errno (Bool × LoopState)) → Option LoopState
  | (_, some (.ok (_, st))) => some st
  | _ => none

/-- The callback-invocation trace of a successful enumeration. -/
def traceOf (r : Bool × Option (Except Errno (Bool × LoopState))) : List (Int × Bool) :=
  match okState r with
  | some st => st.trace
  | none => []

/-- The number of completed scan passes of a successful enumeration. -/
def passesOf (r : Bool × Option (Except Errno (Bool × LoopState))) : Nat :=
  match okState r with
  | some st => st.passes
  | none => 0

/-- The final stream position of a successful enumeration. -/
def posOf (r : Bool × Option (Except Errno (Bool × LoopState))) : Nat :=
  match okState r with
  | some st => st.pos
  | none => 0

/-- How many times the callback was invoked with thread id `t`. -/
def callsTo (t : Int) (r : Bool × Option (Except Errno (Bool × LoopState))) : Nat :=
  ((traceOf r).filter (fun p => p.1 == t)).length

/-- A callback that never claims and leaves the directory unchanged. -/
def cbNever : Cb := fun _ es => .ok (false, es)

/-- A callback that claims every id except `1` and leaves the directory
unchanged. -/
def cbMixed : Cb := fun t es => .ok (t != 1, es)

/-- A callback that claims every id and, upon seeing id `1`, makes a new
entry `3` appear in the directory (modelling thread creation caused by
its side effects). -/
def cbSpawn3 : Cb := fun t es =>
  .ok (true, if t = 1 then es ++ [chars "3"] else es)

/-- Enumeration of a directory holding `1`, `2`, `.`, `..` with an
always-unclaiming callback and `retry_until_fixpoint = false`. -/
def run1 : Bool × Option (Except Errno (Bool × LoopState)) :=
  for_each_tid 4096 5 cbNever false
    (.ok ⟨0, [chars "1", chars "2", chars ".", chars ".."]⟩) 20

/-- Enumeration of a directory holding `1`, `2` with `cbMixed` and
`retry_until_fixpoint = true`. -/
def run5 : Bool × Option (Except Errno (Bool × LoopState)) :=
  for_each_tid 4096 5 cbMixed true (.ok ⟨0, [chars "1", chars "2"]⟩) 20

/-- Enumeration of a directory holding `1`, `2` with `cbSpawn3` and
`retry_until_fixpoint = true`. -/
def run2 : Bool × Option (Except Errno (Bool × LoopState)) :=
  for_each_tid 4096 7 cbSpawn3 true (.ok ⟨0, [chars "1", chars "2"]⟩) 20

/-- A status record whose only (matching) line is 1025 bytes long —
longer than the 1023 characters one `fgets` call can deliver. -/
def longTgidLine : List Char :=
  chars "Tgid:\t" ++ List.replicate 1009 '0' ++ chars "123456789\n"

end Procfs

namespace Procfs

/-- C1 counterexample: for the directory `{"1","2",".",".."}`, an
always-`false` callback and `retry_until_fixpoint = false`, each of the
ids `1` and `2` is offered to the callback exactly once — not once per
pass on both of the two fixed passes, as the claim states (that would
make two invocations per id). -/
theorem c1_counterexample :
    callsTo 1 run1 = 1 ∧ callsTo 2 run1 = 1 ∧
    ¬ (callsTo 1 run1 = 2 ∧ callsTo 2 run1 = 2) :=
  ⟨rfl, rfl, by decide⟩

/-- C1 amended: with `retry_until_fixpoint = false` the loop performs
exactly two passes, but the directory stream is only rewound after a
productive pass when `retry_until_fixpoint` is true; the first pass
leaves the stream at end-of-directory (position 4), so the second pass
reads nothing, and each of the ids `1` and `2` is offered exactly once,
both during the first pass. -/
theorem c1_amended_two_passes_single_offer :
    passesOf run1 = 2 ∧ posOf run1 = 4 ∧
    traceOf run1 = [(1, false), (2, false)] ∧
    callsTo 1 run1 = 1 ∧ callsTo 2 run1 = 1 :=
  ⟨rfl, rfl, rfl, rfl, rfl⟩

/-- C2: with `retry_until_fixpoint = true`, a productive scan pass
rewinds the directory stream to the start and resets the pass counter
(`it = -1`, incremented to `0` by the loop header), so scanning
continues; consequently, when the callback's side effects make a new id
`3` appear in the directory during enumeration, the callback is
eventually invoked for `3` before the call returns. -/
theorem c2_productive_pass_rescans_and_new_tid_reported :
    (∀ (cb : Cb) (sf pf : Nat) (it : Int) (st st1 : LoopState),
      it < 2 →
      scanPass cb sf { st with foundNew := false, passes := st.passes + 1 }
        = some (.ok st1) →
      st1.foundNew = true →
      passLoop cb true sf (pf + 1) it st
        = passLoop cb true sf pf 0 { st1 with pos := 0 }) ∧
    (3, true) ∈ traceOf run2 := by
  constructor
  · intro cb sf pf it st st1 hit hscan hfnd
    simp only [passLoop, if_pos hit, hscan, hfnd, Bool.true_and, if_pos]
    norm_num
  · decide

/-- C5 counterexample: for the directory `{"1","2"}`,
`retry_until_fixpoint = true` and a callback that claims `2` but not
`1`, the callback is invoked twice with id `1` within a single call —
ids are not reported at most once regardless of claim decisions. -/
theorem c5_counterexample :
    traceOf run5 = [(1, false), (2, true), (1, false)] ∧ callsTo 1 run5 = 2 :=
  ⟨rfl, rfl⟩

/-- C6 counterexample: `ensure_procfs` on a valid descriptor whose
backing device has major number 8 fails with the errno value `EIO` —
exactly the `std::errc::io_error` value that `get_pid_status_field`
also returns for its `IOError` case (field not found before
end-of-file), so the authenticity failure is not a distinct `NotProcfs`
error. -/
theorem c6_counterexample :
    ensure_procfs 3 (.ok ⟨8⟩) = .error EIO ∧
    (get_pid_status_field 4096 1 (chars "Tgid")
      (.ok ⟨0, chars "Foo:\t1\n"⟩)).2 = .error EIO :=
  ⟨rfl, rfl⟩

/-- C6 amended: `ensure_procfs`, applied to a valid open descriptor
whose `fstat` succeeds, succeeds iff the backing device's major number
is zero, and fails with the generic `io_error` errno (`EIO`) — not a
distinct `NotProcfs` code — when the major number is non-zero. -/
theorem c6_amended_nonzero_major_io_error (fd : Int) (sb : Stat)
    (hfd : 0 ≤ fd) :
    (ensure_procfs fd (.ok sb) = .ok () ↔ sb.st_dev_major = 0) ∧
    (sb.st_dev_major ≠ 0 → ensure_procfs fd (.ok sb) = .error EIO) := by
  have h0 : ¬ fd < 0 := by omega
  constructor
  · by_cases h : sb.st_dev_major = 0 <;> simp [ensure_procfs, h0, h]
  · intro h
    simp [ensure_procfs, h0, h]

/-- Witness for C6: applies the theorem at descriptor 3 and major
number 8. -/
theorem c6_witness :
    ((ensure_procfs 3 (.ok ⟨8⟩) = .ok () ↔ (Stat.mk 8).st_dev_major = 0) ∧
      ((Stat.mk 8).st_dev_major ≠ 0 → ensure_procfs 3 (.ok ⟨8⟩) = .error EIO)) :=
  c6_amended_nonzero_major_io_error 3 ⟨8⟩ (by decide)

/-- C9: when the formatted pseudo-filesystem path reaches the maximum
path length, `get_pid_status_field` and `for_each_tid` fail with
`ENAMETOOLONG` (`std::errc::filename_too_long`) and report that no
filesystem access took place (the `false` component): the guard runs
before any open, read or directory scan. -/
theorem c9_name_too_long_no_io (PM : Nat) (pid : Int) (name : List Char)
    (o1 : Except Errno StatusFile) (cb : Cb) (retry : Bool)
    (o2 : Except Errno TaskDir) (fuel : Nat) :
    ((statusPath pid).length ≥ PM →
      get_pid_status_field PM pid name o1 = (false, .error ENAMETOOLONG)) ∧
    ((taskPath pid).length ≥ PM →
      for_each_tid PM pid cb retry o2 fuel
        = (false, some (.error ENAMETOOLONG))) := by
  constructor
  · intro h
    simp [get_pid_status_field, h]
  · intro h
    simp [for_each_tid, h]

/-- Witness for C9: with `PATH_MAX = 5`, both paths for pid 0 are too
long, and both entry points fail without touching the filesystem. -/
theorem c9_witness :
    get_pid_status_field 5 0 (chars "Tgid") (.ok ⟨0, chars "x"⟩)
      = (false, .error ENAMETOOLONG) ∧
    for_each_tid 5 0 cbNever false (.ok ⟨0, [chars "1"]⟩) 3
      = (false, some (.error ENAMETOOLONG)) :=
  ⟨(c9_name_too_long_no_io 5 0 (chars "Tgid") (.ok ⟨0, chars "x"⟩) cbNever
      false (.ok ⟨0, [chars "1"]⟩) 3).1 (by decide),
   (c9_name_too_long_no_io 5 0 (chars "Tgid") (.ok ⟨0, chars "x"⟩) cbNever
      false (.ok ⟨0, [chars "1"]⟩) 3).2 (by decide)⟩

/-- Concatenation of the lines of a status record. -/
def concatAll : List (List Char) → List Char
  | [] => []
  | l :: ls => l ++ concatAll ls

/-- A well-formed status line: ends in a newline, contains no interior
newline, and fits into one 1023-character `fgets` chunk. -/
def WfLine (l : List Char) : Prop :=
  ∃ body, l = body ++ ['\n'] ∧ '\n' ∉ body ∧ body.length ≤ 1022

theorem takeLine_exact :
    ∀ (body rest : List Char) (n : Nat), '\n' ∉ body → body.length < n →
      takeLine n (body ++ '\n' :: rest) = (body ++ ['\n'], rest) := by
  intro body
  induction body with
  | nil =>
    intro rest n _ hn
    match n, hn with
    | n + 1, _ => simp [takeLine]
  | cons c b ih =>
    intro rest n hnl hn
    match n, hn with
    | n + 1, hn =>
      have hc : ¬ c = '\n' := fun h => hnl (by simp [h])
      have h1 : (c :: b) ++ '\n' :: rest = c :: (b ++ '\n' :: rest) := rfl
      rw [h1, takeLine, if_neg hc,
        ih rest n (fun h => hnl (List.mem_cons_of_mem _ h)) (by
          simp only [List.length_cons] at hn; omega)]
      rfl

theorem fgets_line (body rest : List Char) (hnl : '\n' ∉ body)
    (hlen : body.length ≤ 1022) :
    fgetsChunk 1023 ((body ++ ['\n']) ++ rest) = some (body ++ ['\n'], rest) := by
  have he : (body ++ ['\n']) ++ rest = body ++ '\n' :: rest := by simp
  rw [fgetsChunk, he, if_neg (by simp), takeLine_exact body rest 1023 hnl (by omega)]

theorem scanStatus_skip_line (name body rest : List Char) (fuel : Nat)
    (hnl : '\n' ∉ body) (hlen : body.length ≤ 1022)
    (hm : matchesField name (body ++ ['\n']) = false) :
    scanStatus name (fuel + 1) ((body ++ ['\n']) ++ rest)
      = scanStatus name fuel rest := by
  simp only [scanStatus, fgets_line body rest hnl hlen, hm, Bool.false_eq_true,
    if_false]

theorem scanStatus_finds (name tbody tail tline : List Char)
    (ht : tline = tbody ++ ['\n'])
    (htnl : '\n' ∉ tbody) (htlen : tbody.length ≤ 1022)
    (hm : matchesField name tline = true) :
    ∀ (pre : List (List Char)) (fuel : Nat),
      (∀ l ∈ pre, WfLine l ∧ matchesField name l = false) →
      pre.length < fuel →
      scanStatus name fuel (concatAll pre ++ tline ++ tail)
        = str_to_num (trimEol (tline.drop (name.length + 1))) := by
  subst ht
  intro pre
  induction pre with
  | nil =>
    intro fuel _ hf
    match fuel, hf with
    | fuel + 1, _ =>
      simp only [concatAll, List.nil_append]
      rw [scanStatus, fgets_line tbody tail htnl htlen]
      simp only [hm, if_true]
  | cons l pre ih =>
    intro fuel hpre hf
    match fuel, hf with
    | fuel + 1, hf =>
      obtain ⟨⟨body, hl, hbnl, hblen⟩, hlm⟩ := hpre l (List.mem_cons_self l pre)
      subst hl
      have hassoc :
          concatAll ((body ++ ['\n']) :: pre) ++ (tbody ++ ['\n']) ++ tail
            = (body ++ ['\n']) ++ (concatAll pre ++ (tbody ++ ['\n']) ++ tail) := by
        simp [concatAll]
      rw [hassoc, scanStatus_skip_line name body _ fuel hbnl hblen hlm,
        ih fuel (fun l hl => hpre l (List.mem_cons_of_mem _ hl)) (by
          simp only [List.length_cons] at hf; omega)]

theorem concatAll_length_ge (pre : List (List Char))
    (h : ∀ l ∈ pre, l ≠ []) : pre.length ≤ (concatAll pre).length := by
  induction pre with
  | nil => simp [concatAll]
  | cons l ls ih =>
    have h1 : l ≠ [] := h l (List.mem_cons_self l ls)
    have h2 : 1 ≤ l.length := List.length_pos.mpr h1
    have h3 := ih (fun x hx => h x (List.mem_cons_of_mem _ hx))
    simp only [concatAll, List.length_cons, List.length_append]
    omega

/-- C7: if the status record consists of well-formed non-matching lines
followed by the line `Tgid:\t1234\n` (and then anything at all), then
`get_pid_status_field (pid, "Tgid")` — and hence `get_tgid pid` —
returns `1234`: the first line starting with the field name immediately
followed by `:` determines the result, the trailing newline is trimmed
before base-10 parsing, and reading stops at that first match (the tail
of the record is unconstrained). -/
theorem c7_first_matching_line_parsed (PM : Nat) (pid : Int)
    (pre : List (List Char)) (tail : List Char)
    (hPM : (statusPath pid).length < PM)
    (hpre : ∀ l ∈ pre, WfLine l ∧ matchesField (chars "Tgid") l = false) :
    get_pid_status_field PM pid (chars "Tgid")
        (.ok ⟨0, concatAll pre ++ chars "Tgid:\t1234\n" ++ tail⟩)
      = (true, .ok 1234) ∧
    get_tgid PM pid
        (.ok ⟨0, concatAll pre ++ chars "Tgid:\t1234\n" ++ tail⟩)
      = (true, .ok 1234) := by
  have hmain :
      get_pid_status_field PM pid (chars "Tgid")
          (.ok ⟨0, concatAll pre ++ chars "Tgid:\t1234\n" ++ tail⟩)
        = (true, .ok 1234) := by
    rw [get_pid_status_field, if_neg (by omega)]
    show (true, scanStatus (chars "Tgid")
        ((concatAll pre ++ chars "Tgid:\t1234\n" ++ tail).length + 1)
        (concatAll pre ++ chars "Tgid:\t1234\n" ++ tail)) = (true, .ok 1234)
    have hlines : ∀ l ∈ pre, l ≠ [] := by
      intro l hl
      obtain ⟨⟨body, hl', _, _⟩, _⟩ := hpre l hl
      subst hl'
      simp
    have hfuel :
        pre.length <
          (concatAll pre ++ chars "Tgid:\t1234\n" ++ tail).length + 1 := by
      have := concatAll_length_ge pre hlines
      simp only [List.length_append]
      omega
    rw [scanStatus_finds (chars "Tgid") (chars "Tgid:\t1234") tail
      (chars "Tgid:\t1234\n") rfl (by decide) (by decide) (by decide)
      pre _ hpre hfuel]
    rfl
  exact ⟨hmain, hmain⟩

/-- Witness for C7: a record with one preceding non-matching line and a
trailing line after the match. -/
theorem c7_witness :
    get_pid_status_field 4096 1234 (chars "Tgid")
        (.ok ⟨0, concatAll [chars "Name:\tfoo\n"] ++ chars "Tgid:\t1234\n"
          ++ chars "Pid:\t9\n"⟩)
      = (true, .ok 1234) ∧
    get_tgid 4096 1234
        (.ok ⟨0, concatAll [chars "Name:\tfoo\n"] ++ chars "Tgid:\t1234\n"
          ++ chars "Pid:\t9\n"⟩)
      = (true, .ok 1234) :=
  c7_first_matching_line_parsed 4096 1234 [chars "Name:\tfoo\n"]
    (chars "Pid:\t9\n") (by decide)
    (by
      intro l hl
      simp only [List.mem_singleton] at hl
      subst hl
      exact ⟨⟨chars "Name:\tfoo", rfl, by decide, by decide⟩, rfl⟩)

theorem readdir_eq_none_of_le (st : LoopState)
    (h : st.entries.length ≤ st.pos) : readdir st = none := by
  unfold readdir
  rw [List.drop_eq_nil_of_le h]

theorem le_pos_of_readdir_none (st : LoopState)
    (h : readdir st = none) : st.entries.length ≤ st.pos := by
  unfold readdir at h
  cases hd : st.entries.drop st.pos with
  | nil => exact List.drop_eq_nil_iff.mp hd
  | cons e es => rw [hd] at h; simp at h

theorem readdir_fields (st : LoopState) (nm : List Char) (st' : LoopState)
    (h : readdir st = some (nm, st')) :
    st' = { st with pos := st.pos + 1 } := by
  unfold readdir at h
  cases hd : st.entries.drop st.pos with
  | nil => rw [hd] at h; simp at h
  | cons e es =>
    rw [hd] at h
    simp only [Option.some.injEq, Prod.mk.injEq] at h
    exact h.2.symm

/-- A scan pass that completes normally has drained the directory
stream: the final position is at or past the end of the entry list. -/
theorem scanPass_pos_ge (cb : Cb) :
    ∀ (fuel : Nat) (st r : LoopState),
      scanPass cb fuel st = some (.ok r) → r.entries.length ≤ r.pos := by
  intro fuel
  induction fuel with
  | zero => intro st r h; simp [scanPass] at h
  | succ f ih =>
    intro st r h
    cases hrd : readdir st with
    | none =>
      simp only [scanPass, hrd, Option.some.injEq, Except.ok.injEq] at h
      subst h
      exact le_pos_of_readdir_none st hrd
    | some p =>
      obtain ⟨nm, st'⟩ := p
      simp only [scanPass, hrd] at h
      split at h
      · exact ih st' r h
      · split at h
        · simp at h
        · split at h
          · exact ih st' r h
          · split at h
            · simp at h
            · split at h
              · exact ih _ r h
              · exact ih _ r h

/-- A scan pass never changes the ghost pass counter. -/
theorem scanPass_passes (cb : Cb) :
    ∀ (fuel : Nat) (st r : LoopState),
      scanPass cb fuel st = some (.ok r) → r.passes = st.passes := by
  intro fuel
  induction fuel with
  | zero => intro st r h; simp [scanPass] at h
  | succ f ih =>
    intro st r h
    cases hrd : readdir st with
    | none =>
      simp only [scanPass, hrd, Option.some.injEq, Except.ok.injEq] at h
      subst h
      rfl
    | some p =>
      obtain ⟨nm, st'⟩ := p
      have hp' : st'.passes = st.passes := by
        rw [readdir_fields st nm st' hrd]
      simp only [scanPass, hrd] at h
      split at h
      · rw [ih st' r h, hp']
      · split at h
        · simp at h
        · split at h
          · rw [ih st' r h, hp']
          · split at h
            · simp at h
            · split at h
              · rw [ih _ r h]; exact hp'
              · rw [ih _ r h]; exact hp'

/-- A scan pass started with the stream already drained returns its
state unchanged. -/
theorem scanPass_stuck (cb : Cb) (fuel : Nat) (st r : LoopState)
    (hpos : st.entries.length ≤ st.pos)
    (h : scanPass cb fuel st = some (.ok r)) : r = st := by
  cases fuel with
  | zero => simp [scanPass] at h
  | succ f =>
    simp only [scanPass, readdir_eq_none_of_le st hpos, Option.some.injEq,
      Except.ok.injEq] at h
    exact h.symm

/-- On every normal exit of the outer pass loop, the returned boolean is
`false` and so is the final `found_new_thread` flag: the value
`oc::success()` produces always equals the productivity of the final
pass, because the loop can only exit after an unproductive pass. -/
theorem passLoop_ok_shape (cb : Cb) (retry : Bool) (sf : Nat) :
    ∀ (pf : Nat) (it : Int) (st : LoopState) (ret : Bool) (fin : LoopState),
      (it = 1 → st.entries.length ≤ st.pos) →
      (2 ≤ it → st.foundNew = false) →
      passLoop cb retry sf pf it st = some (.ok (ret, fin)) →
      ret = false ∧ fin.foundNew = false := by
  intro pf
  induction pf with
  | zero => intro it st ret fin _ _ h; simp [passLoop] at h
  | succ pf ih =>
    intro it st ret fin h1 h2 h
    simp only [passLoop] at h
    by_cases hit : it < 2
    · rw [if_pos hit] at h
      cases hsc : scanPass cb sf { st with foundNew := false, passes := st.passes + 1 } with
      | none => rw [hsc] at h; simp at h
      | some res =>
        rw [hsc] at h
        cases res with
        | error e => simp at h
        | ok st1 =>
          simp only at h
          by_cases hf : (st1.foundNew && retry) = true
          · rw [if_pos hf] at h
            refine ih _ _ ret fin ?_ ?_ h
            · intro he; norm_num at he
            · intro he; norm_num at he
          · rw [if_neg hf] at h
            have hpos : st1.entries.length ≤ st1.pos :=
              scanPass_pos_ge cb sf _ st1 hsc
            refine ih (it + 1) st1 ret fin (fun _ => hpos) ?_ h
            intro hge
            have hit1 : it = 1 := by omega
            have hstk :
                st1 = { st with foundNew := false, passes := st.passes + 1 } :=
              scanPass_stuck cb sf _ st1 (h1 hit1) hsc
            rw [hstk]
    · rw [if_neg hit] at h
      simp only [Option.some.injEq, Except.ok.injEq, Prod.mk.injEq] at h
      obtain ⟨hr, hfin⟩ := h
      subst hr
      subst hfin
      exact ⟨rfl, h2 (by omega)⟩

/-- C3: whenever `enumerate` completes without error, the boolean it
returns equals whether the final scan pass was productive — both are
always `false`: the loop only exits after an unproductive pass, and
`return oc::success()` value-initialises the result to `false`. -/
theorem c3_return_echoes_final_pass_productivity (PM : Nat) (pid : Int)
    (cb : Cb) (retry : Bool) (o : Except Errno TaskDir) (fuel : Nat)
    (acc ret : Bool) (fin : LoopState)
    (h : for_each_tid PM pid cb retry o fuel = (acc, some (.ok (ret, fin)))) :
    ret = fin.foundNew := by
  unfold for_each_tid at h
  split at h
  · simp at h
  · cases o with
    | error e => simp at h
    | ok d =>
      simp only at h
      cases hen : ensure_procfs 0 (.ok { st_dev_major := d.major }) with
      | error e => rw [hen] at h; simp at h
      | ok u =>
        rw [hen] at h
        simp only [Prod.mk.injEq] at h
        have hres := passLoop_ok_shape cb retry fuel fuel 0
          { entries := d.entries, pos := 0, tids := [], trace := [],
            passes := 0, foundNew := false } ret fin
          (by intro he; norm_num at he) (by intro he; norm_num at he) h.2
        rw [hres.1, hres.2]

/-- Witness for C2: applies the rescan property to the first (productive)
pass of the `cbSpawn3` scenario, and reports that id `3` was offered. -/
theorem c2_witness :
    passLoop cbSpawn3 true 20 (5 + 1) 0
        (⟨[chars "1", chars "2"], 0, [], [], 0, false⟩ : LoopState)
      = passLoop cbSpawn3 true 20 5 0
        { (⟨[chars "1", chars "2", chars "3"], 3, [3, 2, 1],
            [(1, true), (2, true), (3, true)], 1, true⟩ : LoopState) with
          pos := 0 } ∧
    (3, true) ∈ traceOf run2 :=
  ⟨c2_productive_pass_rescans_and_new_tid_reported.1 cbSpawn3 20 5 0
      ⟨[chars "1", chars "2"], 0, [], [], 0, false⟩
      ⟨[chars "1", chars "2", chars "3"], 3, [3, 2, 1],
        [(1, true), (2, true), (3, true)], 1, true⟩
      (by norm_num) rfl rfl,
   c2_productive_pass_rescans_and_new_tid_reported.2⟩

/-- Witness for C3: applies the theorem to a concrete completed
enumeration of the directory `{"1"}` with an always-unclaiming
callback. -/
theorem c3_witness :
    (false : Bool)
      = (⟨[chars "1"], 1, [], [(1, false)], 2, false⟩ : LoopState).foundNew :=
  c3_return_echoes_final_pass_productivity 4096 1 cbNever false
    (.ok ⟨0, [chars "1"]⟩) 10 true false
    ⟨[chars "1"], 1, [], [(1, false)], 2, false⟩ rfl

/-- C4: once thread-set growth stabilizes, enumeration terminates: if a
scan pass from state `st` is unproductive and the pass after it is
unproductive as well, the pass loop returns within two further passes
(pass-loop fuel 3 suffices from `it = 0`), with exactly two more passes
performed. -/
theorem c4_terminates_after_two_unproductive_passes (cb : Cb)
    (retry : Bool) (sf : Nat) (st st1 st2 : LoopState)
    (hs1 : scanPass cb sf { st with foundNew := false, passes := st.passes + 1 }
      = some (.ok st1))
    (hnp1 : st1.foundNew = false)
    (hs2 : scanPass cb sf { st1 with foundNew := false, passes := st1.passes + 1 }
      = some (.ok st2))
    (hnp2 : st2.foundNew = false) :
    passLoop cb retry sf 3 0 st = some (.ok (false, st2)) ∧
    st2.passes = st.passes + 2 := by
  constructor
  · rw [passLoop, if_pos (by norm_num : (0 : Int) < 2), hs1]
    simp only [hnp1, Bool.false_and]
    rw [if_neg (by simp)]
    have h01 : (0 : Int) + 1 = 1 := rfl
    rw [h01, passLoop, if_pos (by norm_num : (1 : Int) < 2), hs2]
    simp only [hnp2, Bool.false_and]
    rw [if_neg (by simp)]
    have h12 : (1 : Int) + 1 = 2 := rfl
    rw [h12, passLoop, if_neg (by norm_num : ¬ (2 : Int) < 2)]
  · have h1 : st1.passes = st.passes + 1 := scanPass_passes cb sf _ st1 hs1
    have h2 : st2.passes = st1.passes + 1 := scanPass_passes cb sf _ st2 hs2
    omega

/-- Witness for C4: both passes over the already-drained directory
`{"1"}` with an always-unclaiming callback are unproductive, and the
loop returns after exactly two passes. -/
theorem c4_witness :
    passLoop cbNever false 10 3 0
        (⟨[chars "1"], 0, [], [], 0, false⟩ : LoopState)
      = some (.ok (false, ⟨[chars "1"], 1, [], [(1, false)], 2, false⟩)) ∧
    (⟨[chars "1"], 1, [], [(1, false)], 2, false⟩ : LoopState).passes
      = (⟨[chars "1"], 0, [], [], 0, false⟩ : LoopState).passes + 2 :=
  c4_terminates_after_two_unproductive_passes cbNever false 10
    ⟨[chars "1"], 0, [], [], 0, false⟩
    ⟨[chars "1"], 1, [], [(1, false)], 1, false⟩
    ⟨[chars "1"], 1, [], [(1, false)], 2, false⟩
    rfl rfl rfl rfl

/-- Each thread id is claimed at most once: among the recorded callback
invocations, at most one with id `t` returned `true`. -/
def ClaimedOnce (tr : List (Int × Bool)) : Prop :=
  ∀ t : Int, (tr.filter (fun p => p.1 == t && p.2)).length ≤ 1

/-- Invariant tying the ghost invocation trace to the discovered set:
claimed ids are recorded at most once, and every claimed id is in
`tids` (so it is never offered again). -/
def TraceInv (st : LoopState) : Prop :=
  ClaimedOnce st.trace ∧ ∀ t : Int, (t, true) ∈ st.trace → t ∈ st.tids

theorem traceInv_extend_true (st' : LoopState) (tid : Int)
    (es' : List (List Char)) (h : TraceInv st') (hnot : tid ∉ st'.tids) :
    TraceInv { st' with
               entries := es',
               tids := tid :: st'.tids,
               trace := st'.trace ++ [(tid, true)],
               foundNew := true } := by
  constructor
  · intro t
    show ((st'.trace ++ [(tid, true)]).filter (fun p => p.1 == t && p.2)).length ≤ 1
    rw [List.filter_append, List.length_append]
    by_cases ht : tid = t
    · subst ht
      have h0 : st'.trace.filter (fun p => p.1 == tid && p.2) = [] := by
        rw [List.filter_eq_nil_iff]
        intro a ha hpa
        have hp := (Bool.and_eq_true _ _).mp hpa
        have h1 : a.1 = tid := eq_of_beq hp.1
        have h2 : a.2 = true := hp.2
        have ha' : a = (tid, true) := Prod.ext h1 h2
        exact hnot (h.2 tid (ha' ▸ ha))
      rw [h0]
      simp
    · have h1 : (([(tid, true)] : List (Int × Bool)).filter
          (fun p => p.1 == t && p.2)) = [] := by
        simp [List.filter_singleton, ht]
      rw [h1]
      simpa using h.1 t
  · intro t hmem
    rcases List.mem_append.mp hmem with hm | hm
    · exact List.mem_cons_of_mem _ (h.2 t hm)
    · simp only [List.mem_singleton] at hm
      injection hm with h1 h2
      rw [h1]
      exact List.mem_cons_self _ _

theorem traceInv_extend_false (st' : LoopState) (tid : Int)
    (es' : List (List Char)) (h : TraceInv st') :
    TraceInv { st' with
               entries := es',
               trace := st'.trace ++ [(tid, false)] } := by
  constructor
  · intro t
    show ((st'.trace ++ [(tid, false)]).filter (fun p => p.1 == t && p.2)).length ≤ 1
    rw [List.filter_append, List.length_append]
    have h1 : (([(tid, false)] : List (Int × Bool)).filter
        (fun p => p.1 == t && p.2)) = [] := by
      simp [List.filter_singleton]
    rw [h1]
    simpa using h.1 t
  · intro t hmem
    rcases List.mem_append.mp hmem with hm | hm
    · exact h.2 t hm
    · simp only [List.mem_singleton] at hm
      injection hm with h1 h2
      exact absurd h2.symm (by simp)

theorem scanPass_traceInv (cb : Cb) :
    ∀ (fuel : Nat) (st r : LoopState), TraceInv st →
      scanPass cb fuel st = some (.ok r) → TraceInv r := by
  intro fuel
  induction fuel with
  | zero => intro st r _ h; simp [scanPass] at h
  | succ f ih =>
    intro st r hinv h
    cases hrd : readdir st with
    | none =>
      simp only [scanPass, hrd, Option.some.injEq, Except.ok.injEq] at h
      subst h
      exact hinv
    | some p =>
      obtain ⟨nm, st'⟩ := p
      have hst' : TraceInv st' := by
        rw [readdir_fields st nm st' hrd]
        exact hinv
      simp only [scanPass, hrd] at h
      split at h
      · exact ih st' r hst' h
      · split at h
        · simp at h
        · rename_i tid hpn
          split at h
          · exact ih st' r hst' h
          · rename_i hnotin
            split at h
            · simp at h
            · rename_i b es' hcb
              split at h
              · exact ih _ r (traceInv_extend_true st' tid es' hst' hnotin) h
              · exact ih _ r (traceInv_extend_false st' tid es' hst') h

theorem passLoop_traceInv (cb : Cb) (retry : Bool) (sf : Nat) :
    ∀ (pf : Nat) (it : Int) (st : LoopState) (ret : Bool) (fin : LoopState),
      TraceInv st →
      passLoop cb retry sf pf it st = some (.ok (ret, fin)) →
      TraceInv fin := by
  intro pf
  induction pf with
  | zero => intro it st ret fin _ h; simp [passLoop] at h
  | succ pf ih =>
    intro it st ret fin hinv h
    simp only [passLoop] at h
    by_cases hit : it < 2
    · rw [if_pos hit] at h
      cases hsc : scanPass cb sf { st with foundNew := false, passes := st.passes + 1 } with
      | none => rw [hsc] at h; simp at h
      | some res =>
        rw [hsc] at h
        cases res with
        | error e => simp at h
        | ok st1 =>
          have hinv1 : TraceInv st1 :=
            scanPass_traceInv cb sf
              { st with foundNew := false, passes := st.passes + 1 } st1 hinv hsc
          simp only at h
          by_cases hf : (st1.foundNew && retry) = true
          · rw [if_pos hf] at h
            exact ih _ { st1 with pos := 0 } ret fin hinv1 h
          · rw [if_neg hf] at h
            exact ih _ st1 ret fin hinv1 h
    · rw [if_neg hit] at h
      simp only [Option.some.injEq, Except.ok.injEq, Prod.mk.injEq] at h
      rw [← h.2]
      exact hinv

/-- C5 amended: within one `enumerate` call, every thread id the
callback claims is passed to the callback at most once — once claimed it
enters DiscoveredSet and is never re-offered — while unclaimed ids may
be offered again on later passes (see the counterexample). -/
theorem c5_amended_claimed_ids_offered_once (PM : Nat) (pid : Int)
    (cb : Cb) (retry : Bool) (o : Except Errno TaskDir) (fuel : Nat)
    (acc ret : Bool) (fin : LoopState)
    (h : for_each_tid PM pid cb retry o fuel = (acc, some (.ok (ret, fin)))) :
    ClaimedOnce fin.trace := by
  unfold for_each_tid at h
  split at h
  · simp at h
  · cases o with
    | error e => simp at h
    | ok d =>
      simp only at h
      cases hen : ensure_procfs 0 (.ok { st_dev_major := d.major }) with
      | error e => rw [hen] at h; simp at h
      | ok u =>
        rw [hen] at h
        simp only [Prod.mk.injEq] at h
        have hinit : TraceInv
            { entries := d.entries, pos := 0, tids := [], trace := [],
              passes := 0, foundNew := false } :=
          ⟨fun t => by simp, fun t ht => absurd ht (List.not_mem_nil _)⟩
        exact (passLoop_traceInv cb retry fuel fuel 0 _ ret fin hinit h.2).1

/-- Witness for C5: applies the theorem to the completed `cbMixed`
enumeration, whose trace claims only id `2`. -/
theorem c5_witness : ClaimedOnce [(1, false), (2, true), (1, false)] :=
  c5_amended_claimed_ids_offered_once 4096 5 cbMixed true
    (.ok ⟨0, [chars "1", chars "2"]⟩) 20 true false
    ⟨[chars "1", chars "2"], 2, [2], [(1, false), (2, true), (1, false)], 3, false⟩
    rfl

theorem readdir_at (E : List (List Char)) (k : Nat) (tids : List Int)
    (trace : List (Int × Bool)) (passes : Nat) (fnd : Bool)
    (g : List Char) (tl : List (List Char)) (h : E.drop k = g :: tl) :
    readdir ⟨E, k, tids, trace, passes, fnd⟩
      = some (g, ⟨E, k + 1, tids, trace, passes, fnd⟩) := by
  simp [readdir, h]

/-- A scan pass whose remaining unread entries are well-formed up to a
non-numeric entry reaches that entry and fails with its conversion
errno, provided the callback never fails and never changes the
directory. -/
theorem scanPass_hits_bad (cb : Cb)
    (hc : ∀ (t : Int) (es : List (List Char)), ∃ b, cb t es = .ok (b, es))
    (bad : List Char) (rest : List (List Char)) (e : Errno)
    (hb1 : ¬ bad = chars ".") (hb2 : ¬ bad = chars "..")
    (hb3 : str_to_num bad = .error e) :
    ∀ (good : List (List Char)),
      (∀ g ∈ good, g = chars "." ∨ g = chars ".."
        ∨ ∃ t : Int, str_to_num g = .ok t) →
      ∀ (fuel : Nat) (done : List (List Char)) (tids : List Int)
        (trace : List (Int × Bool)) (passes : Nat) (fnd : Bool),
        good.length < fuel →
        scanPass cb fuel
          ⟨done ++ (good ++ bad :: rest), done.length, tids, trace, passes, fnd⟩
          = some (.error e) := by
  intro good
  induction good with
  | nil =>
    intro _ fuel done tids trace passes fnd hf
    match fuel, hf with
    | fuel + 1, _ =>
      show scanPass cb (fuel + 1)
          ⟨done ++ bad :: rest, done.length, tids, trace, passes, fnd⟩
          = some (.error e)
      have hrd := readdir_at (done ++ bad :: rest) done.length tids trace
        passes fnd bad rest (List.drop_left done (bad :: rest))
      simp only [scanPass, hrd]
      rw [if_neg (not_or.mpr ⟨hb1, hb2⟩)]
      simp only [hb3]
  | cons g gs ih =>
    intro hg fuel done tids trace passes fnd hf
    match fuel, hf with
    | fuel + 1, hf =>
      show scanPass cb (fuel + 1)
          ⟨done ++ g :: (gs ++ bad :: rest), done.length, tids, trace,
            passes, fnd⟩
          = some (.error e)
      have hf' : gs.length < fuel := by
        simp only [List.length_cons] at hf
        omega
      have hgs : ∀ x ∈ gs, x = chars "." ∨ x = chars ".."
          ∨ ∃ t : Int, str_to_num x = .ok t :=
        fun x hx => hg x (List.mem_cons_of_mem _ hx)
      have step :
          ∀ (tids' : List Int) (trace' : List (Int × Bool)) (fnd' : Bool),
            scanPass cb fuel
              ⟨done ++ g :: (gs ++ bad :: rest), done.length + 1,
                tids', trace', passes, fnd'⟩
              = some (.error e) := by
        intro tids' trace' fnd'
        have h' := ih hgs fuel (done ++ [g]) tids' trace' passes fnd' hf'
        have hE : (done ++ [g]) ++ (gs ++ bad :: rest)
            = done ++ g :: (gs ++ bad :: rest) := by simp
        have hL : (done ++ [g]).length = done.length + 1 := by simp
        rw [hE, hL] at h'
        exact h'
      have hrd := readdir_at (done ++ g :: (gs ++ bad :: rest)) done.length
        tids trace passes fnd g (gs ++ bad :: rest)
        (List.drop_left done (g :: (gs ++ bad :: rest)))
      simp only [scanPass, hrd]
      rcases hg g (List.mem_cons_self g gs) with hdot | hdot | ⟨t, hpt⟩
      · rw [if_pos (Or.inl hdot)]
        exact step tids trace fnd
      · rw [if_pos (Or.inr hdot)]
        exact step tids trace fnd
      · have hnd1 : ¬ g = chars "." := by
          intro hh
          rw [hh] at hpt
          have h0 : str_to_num (chars ".") = .error EINVAL := rfl
          rw [h0] at hpt
          simp at hpt
        have hnd2 : ¬ g = chars ".." := by
          intro hh
          rw [hh] at hpt
          have h0 : str_to_num (chars "..") = .error EINVAL := rfl
          rw [h0] at hpt
          simp at hpt
        rw [if_neg (not_or.mpr ⟨hnd1, hnd2⟩)]
        simp only [hpt]
        by_cases hmem : t ∈ tids
        · rw [if_pos hmem]
          exact step tids trace fnd
        · rw [if_neg hmem]
          obtain ⟨b, hcb⟩ := hc t (done ++ g :: (gs ++ bad :: rest))
          simp only [hcb]
          cases b with
          | true =>
            rw [if_pos rfl]
            exact step _ _ _
          | false =>
            rw [if_neg (by simp)]
            exact step _ _ _

theorem passLoop_error_of_scanPass (cb : Cb) (retry : Bool) (sf pf : Nat)
    (it : Int) (st : LoopState) (e : Errno) (hit : it < 2)
    (hs : scanPass cb sf { st with foundNew := false, passes := st.passes + 1 }
      = some (.error e)) :
    passLoop cb retry sf (pf + 1) it st = some (.error e) := by
  simp only [passLoop, if_pos hit, hs]

/-- C8: any directory entry other than `.` and `..` whose name does not
parse as a non-negative integer makes the whole `enumerate` call fail
with the conversion errno (`ParseError`) as soon as it is reached on the
first pass; the call returns that error and nothing else (no partial
result), provided the earlier entries are well-formed and the callback
neither fails nor changes the directory. -/
theorem c8_bad_entry_parse_error (PM : Nat) (pid : Int) (cb : Cb)
    (retry : Bool) (good rest : List (List Char)) (bad : List Char)
    (e : Errno) (fuel : Nat)
    (hPM : (taskPath pid).length < PM)
    (hc : ∀ (t : Int) (es : List (List Char)), ∃ b, cb t es = .ok (b, es))
    (hg : ∀ g ∈ good, g = chars "." ∨ g = chars ".."
      ∨ ∃ t : Int, str_to_num g = .ok t)
    (hb1 : ¬ bad = chars ".") (hb2 : ¬ bad = chars "..")
    (hb3 : str_to_num bad = .error e)
    (hf : good.length + 1 < fuel) :
    for_each_tid PM pid cb retry (.ok ⟨0, good ++ bad :: rest⟩) fuel
      = (true, some (.error e)) := by
  rw [for_each_tid, if_neg (by omega)]
  show (true, passLoop cb retry fuel fuel 0
      ⟨good ++ bad :: rest, 0, [], [], 0, false⟩) = _
  match fuel, hf with
  | fuel + 1, hf =>
    have hscan := scanPass_hits_bad cb hc bad rest e hb1 hb2 hb3 good hg
      (fuel + 1) [] [] [] (0 + 1) false (by omega)
    rw [List.nil_append, List.length_nil] at hscan
    exact congrArg (fun x => ((true : Bool), x))
      (passLoop_error_of_scanPass cb retry (fuel + 1) fuel 0
        ⟨good ++ bad :: rest, 0, [], [], 0, false⟩ e (by norm_num) hscan)

/-- Witness for C8: the directory `{"1", ".", "abc", "2"}` makes the
whole call fail with `EINVAL` (the parse error for `"abc"`). -/
theorem c8_witness :
    for_each_tid 4096 1 cbNever false
        (.ok ⟨0, [chars "1", chars ".", chars "abc", chars "2"]⟩) 20
      = (true, some (.error EINVAL)) :=
  c8_bad_entry_parse_error 4096 1 cbNever false [chars "1", chars "."]
    [chars "2"] (chars "abc") EINVAL 20
    (by decide)
    (fun t es => ⟨false, rfl⟩)
    (by
      intro g hgm
      simp only [List.mem_cons, List.not_mem_nil, or_false] at hgm
      rcases hgm with h | h
      · right
        right
        refine ⟨1, ?_⟩
        rw [h]
        rfl
      · left
        exact h)
    (by decide) (by decide) rfl (by norm_num)

set_option maxRecDepth 100000 in
/-- C10: on a status record whose matching `Tgid` line is 1025 bytes
long, `get_pid_status_field` treats the first 1023-character `fgets`
chunk as the whole line and returns `12345678`, an integer parsed from a
truncated prefix of the value, while the value actually written in the
record's line is `123456789`. -/
theorem c10_long_line_truncated :
    (get_pid_status_field 4096 1 (chars "Tgid") (.ok ⟨0, longTgidLine⟩)).2
      = .ok 12345678 ∧
    str_to_num (trimEol (longTgidLine.drop ((chars "Tgid").length + 1)))
      = .ok 123456789 ∧
    (12345678 : Int) ≠ 123456789 :=
  ⟨rfl, rfl, by decide⟩

end Procfs
